import Mathlib

/-!
Verification of the deep-zoom tile pyramid builder and tile resolver
(`apps/api/app/tile_processor.py` and `apps/api/app/routers/tiles.py`).

The filesystem is modelled as explicit directory listings (lists of name
strings); Python string operations used by the directory scanner
(`int(...)`, `str.split("_", 1)`, `Path.stem`, the `*_*` glob) are
implemented over `List Char`.  `int(...)` parsing is restricted to ASCII
digits (optional sign, single underscores between digits, surrounding
ASCII whitespace), matching CPython on ASCII input.  Floating-point
`math.ceil(math.log2 ...)` is modelled by exact integer ceil-log search.
-/

/-- ASCII whitespace stripped by Python `int(str)`. -/
def isPySpace (c : Char) : Bool :=
  c = ' ' || c = '\t' || c = '\n' || c = '\r' || c = '\x0b' || c = '\x0c'

/-- Strip leading and trailing whitespace, as Python `int` does before parsing. -/
def trimSpaces (cs : List Char) : List Char :=
  ((cs.dropWhile isPySpace).reverse.dropWhile isPySpace).reverse

/-- Numeric value of an ASCII digit character. -/
def charVal (c : Char) : ℕ := c.toNat - '0'.toNat

/-- Digit run of Python `int`: after the first digit, single underscores may
separate digits (`int("1_0") == 10`). -/
def pyIntGo : ℕ → List Char → Option ℕ
  | acc, [] => some acc
  | acc, c :: rest =>
      if c = '_' then
        match rest with
        | [] => none
        | c2 :: rest2 =>
            if c2.isDigit then pyIntGo (acc * 10 + charVal c2) rest2 else none
      else if c.isDigit then pyIntGo (acc * 10 + charVal c) rest else none

/-- Parse a nonempty digit sequence (with Python's underscore grouping). -/
def pyIntDigits (cs : List Char) : Option ℕ :=
  match cs with
  | [] => none
  | c :: rest => if c.isDigit then pyIntGo (charVal c) rest else none

/-- Sign handling of Python `int`. -/
def pyIntCore (cs : List Char) : Option ℤ :=
  match cs with
  | [] => none
  | c :: rest =>
      if c = '-' then (pyIntDigits rest).map (fun n => -(n : ℤ))
      else if c = '+' then (pyIntDigits rest).map (fun n => (n : ℤ))
      else (pyIntDigits (c :: rest)).map (fun n => (n : ℤ))

/-- Python `int(str)` (ASCII fragment): strip whitespace, optional sign, digits. -/
def pyInt (cs : List Char) : Option ℤ := pyIntCore (trimSpaces cs)

/-- Decimal digit characters of `n`, most significant first (fuel-driven so the
kernel can evaluate it). -/
def natReprAux : ℕ → ℕ → List Char
  | 0, _ => []
  | fuel + 1, n =>
      if n < 10 then [Nat.digitChar n]
      else natReprAux fuel (n / 10) ++ [Nat.digitChar (n % 10)]

/-- Decimal representation of a natural number, as Python `str` produces it. -/
def natRepr (n : ℕ) : List Char := natReprAux (n + 1) n

/-- Decimal representation of an integer, as Python `str` produces it. -/
def intRepr (i : ℤ) : List Char :=
  if i < 0 then '-' :: natRepr i.natAbs else natRepr i.toNat

/-- `str(i)` as a Lean `String`. -/
def strInt (i : ℤ) : String := ⟨intRepr i⟩

/-- `str(n)` as a Lean `String`. -/
def strNat (n : ℕ) : String := ⟨natRepr n⟩

/-- `s.split("_", 1)`: split at the first underscore.  Returns `none` when no
underscore occurs. -/
def splitFirstUnderscore : List Char → Option (List Char × List Char)
  | [] => none
  | c :: rest =>
      if c = '_' then some ([], rest)
      else match splitFirstUnderscore rest with
        | some (a, b) => some (c :: a, b)
        | none => none

/-- Split a filename at its last dot: `some (before, after)`.  Prefers a dot
occurring later in the string. -/
def stemSplit : List Char → Option (List Char × List Char)
  | [] => none
  | c :: rest =>
      match stemSplit rest with
      | some (a, b) => some (c :: a, b)
      | none => if c = '.' then some ([], rest) else none

/-- `pathlib.Path(name).stem`: drop the last suffix when the last dot is at
index `0 < i < len - 1`; otherwise the whole name. -/
def pathStem (cs : List Char) : List Char :=
  match stemSplit cs with
  | some (a, b) => if a ≠ [] ∧ b ≠ [] then a else cs
  | none => cs

/-! ## Filesystem model

A dataset directory holds numeric-named level subdirectories (each a list of
entry names) and an optional `info.dzi` descriptor.  The descriptor file is
modelled at the XML-document level: `malformed` covers any state on which
`ET.parse`/attribute extraction raises. -/

/-- One XML element: namespace, tag, attribute list (document order). -/
structure XElem where
  ns : String
  tag : String
  attrs : List (String × String)
  deriving DecidableEq, Repr

/-- An XML document as the descriptor uses it: a root and its direct children. -/
structure XDoc where
  root : XElem
  children : List XElem
  deriving DecidableEq, Repr

/-- State of the `info.dzi` file. -/
inductive DziState where
  | absent
  | malformed
  | doc (d : XDoc)
  deriving DecidableEq, Repr

/-- A level subdirectory: its name and the names of its entries. -/
structure LevelDir where
  name : String
  files : List String
  deriving DecidableEq, Repr

/-- A dataset directory.  Non-directory entries other than `info.dzi` are
skipped by every code path and hence not modelled. -/
structure DatasetDir where
  subdirs : List LevelDir
  dzi : DziState
  deriving DecidableEq, Repr

/-- `attrib.get(name, default)` on an attribute list. -/
def attrGetD (attrs : List (String × String)) (name dflt : String) : String :=
  match attrs.find? (fun p => p.1 = name) with
  | some p => p.2
  | none => dflt

/-- `attrib.get(name)` without a default. -/
def attrGet (attrs : List (String × String)) (name : String) : Option String :=
  (attrs.find? (fun p => p.1 = name)).map (fun p => p.2)

/-- The Deep Zoom XML namespace (`DZI_NS` without braces). -/
def dziNamespace : String := "http://schemas.microsoft.com/deepzoom/2008"

/-- `tree.find(f"{DZI_NS}Size")`: first direct child named `Size` in the DZI
namespace. -/
def findSize (d : XDoc) : Option XElem :=
  d.children.find? (fun e => e.ns = dziNamespace ∧ e.tag = "Size")

/-- `path.exists()` for `datasetPath/levelName/fileName`. -/
def DatasetDir.fileExists (d : DatasetDir) (levelName fileName : String) : Bool :=
  match d.subdirs.find? (fun l => l.name = levelName) with
  | some l => fileName ∈ l.files
  | none => false

/-! ## Exact ceil-log₂ (models `math.ceil(math.log2 ...)`) -/

/-- Least `k' ≥ k` with `m ≤ 2 ^ k' * t`, searched with explicit fuel. -/
def leastPow (m t : ℕ) : ℕ → ℕ → ℕ
  | 0, k => k
  | fuel + 1, k => if m ≤ 2 ^ k * t then k else leastPow m t fuel (k + 1)

/-- Greatest `j' ≥ j` with `m * 2 ^ j' ≤ t`, searched with explicit fuel. -/
def greatestPow (m t : ℕ) : ℕ → ℕ → ℕ
  | 0, j => j
  | fuel + 1, j => if m * 2 ^ (j + 1) ≤ t then greatestPow m t fuel (j + 1) else j

/-- `math.ceil(math.log2(m / t))` for positive naturals, computed exactly:
the least `k : ℤ` with `m / t ≤ 2 ^ k`. -/
def ceilLog2Q (m t : ℕ) : ℤ :=
  if t ≤ m then (leastPow m t m 0 : ℤ) else -(greatestPow m t t 0 : ℤ)

/-- `math.ceil(math.log2(n))` for a positive integer `n`. -/
def ceilLog2Int (n : ℤ) : ℤ := ceilLog2Q n.toNat 1

/-! ## LevelIndexer: `_dataset_level_metadata` -/

/-- Serving-time lookup failures (`HTTPException(404, ...)` details). -/
inductive Err where
  | datasetNotFound
  | noTilesAvailable
  | tileNotFound
  deriving DecidableEq, Repr

/-- Discovered `{max_col, max_row}` of a level. -/
structure LevelBounds where
  maxCol : ℤ
  maxRow : ℤ
  deriving DecidableEq, Repr

/-- Parse a tile stem `"{col}_{row}"`: split at the first underscore and
`int()` both parts. -/
def parseTileStem (s : List Char) : Option (ℤ × ℤ) :=
  match splitFirstUnderscore s with
  | none => none
  | some (colStr, rowStr) =>
      match pyInt colStr, pyInt rowStr with
      | some c, some r => some (c, r)
      | _, _ => none

/-- The `item.glob("*_*")` filter: the entry name contains an underscore. -/
def globUnderscore (name : String) : Bool := '_' ∈ name.data

/-- One step of the per-level scan: update `(max_col, max_row)` with a
directory entry (skipped unless it matches the glob and parses). -/
def scanStep (acc : ℤ × ℤ) (f : String) : ℤ × ℤ :=
  if globUnderscore f then
    match parseTileStem (pathStem f.data) with
    | some (c, r) => (max acc.1 c, max acc.2 r)
    | none => acc
  else acc

/-- The per-level scan: fold `max_col`/`max_row` (both starting at `-1`) over
the level directory's entries. -/
def scanLevelDir (files : List String) : ℤ × ℤ :=
  files.foldl scanStep (-1, -1)

/-- Python dict assignment `d[k] = v` on an association list. -/
def boundsInsert : List (ℤ × LevelBounds) → ℤ → LevelBounds → List (ℤ × LevelBounds)
  | [], k, v => [(k, v)]
  | (k', v') :: t, k, v =>
      if k' = k then (k, v) :: t else (k', v') :: boundsInsert t k v

/-- Dict lookup `d.get(k)`. -/
def boundsGet (l : List (ℤ × LevelBounds)) (k : ℤ) : Option LevelBounds :=
  (l.find? (fun p => p.1 = k)).map (fun p => p.2)

/-- One step of the directory walk: a subdirectory with an `int()`-parseable
name whose scan found a tile (`max_col ≥ 0` and `max_row ≥ 0`) is appended to
`available_levels` and recorded in `level_bounds`. -/
def scanDirStep (acc : List ℤ × List (ℤ × LevelBounds)) (dir : LevelDir) :
    List ℤ × List (ℤ × LevelBounds) :=
  match pyInt dir.name.data with
  | none => acc
  | some lvl =>
      let mc := (scanLevelDir dir.files).1
      let mr := (scanLevelDir dir.files).2
      if mc ≥ 0 ∧ mr ≥ 0 then
        (acc.1 ++ [lvl], boundsInsert acc.2 lvl ⟨mc, mr⟩)
      else acc

/-- The directory walk of `_dataset_level_metadata`: accumulate the
`available_levels` list and the `level_bounds` dict. -/
def scanSubdirs (subdirs : List LevelDir) : List ℤ × List (ℤ × LevelBounds) :=
  subdirs.foldl scanDirStep ([], [])

/-- Python `max` of a nonempty list. -/
def listMax (a : ℤ) (rest : List ℤ) : ℤ := rest.foldl max a

/-- Python `min` of a nonempty list. -/
def listMin (a : ℤ) (rest : List ℤ) : ℤ := rest.foldl min a

/-- The `info.dzi` branch of `_dataset_level_metadata`: the value assigned to
`dzi_max_level` (any failure inside the `try` keeps the fallback). -/
def dziLevel (maxAvail : ℤ) (st : DziState) : ℤ :=
  match st with
  | .absent => maxAvail
  | .malformed => maxAvail
  | .doc d =>
      match findSize d with
      | none => maxAvail
      | some size =>
          match pyInt (attrGetD size.attrs "Width" "0").data,
                pyInt (attrGetD size.attrs "Height" "0").data with
          | some w, some h =>
              if w > 0 ∨ h > 0 then ceilLog2Int (max w h) else maxAvail
          | _, _ => maxAvail

/-- Result record of `_dataset_level_metadata` (the dataset path itself is the
`DatasetDir` the caller already holds). -/
structure Meta where
  bounds : List (ℤ × LevelBounds)
  minAvail : ℤ
  maxAvail : ℤ
  dziMax : ℤ
  deriving DecidableEq, Repr

/-- Outcome of `_dataset_level_metadata`. -/
inductive MetaResult where
  | ok (m : Meta)
  | err (e : Err)
  deriving DecidableEq, Repr

/-- `_dataset_level_metadata` on an existing dataset directory. -/
def dataset_level_metadata (d : DatasetDir) : MetaResult :=
  let scanned := scanSubdirs d.subdirs
  match scanned.1 with
  | [] => .err .noTilesAvailable
  | a :: rest =>
      let maxAvail := listMax a rest
      let minAvail := listMin a rest
      let dziMax := dziLevel maxAvail d.dzi
      .ok ⟨scanned.2, minAvail, maxAvail, max dziMax maxAvail⟩

/-- `_dataset_level_metadata` including the dataset-existence check. -/
def datasetLevelMetadata (fs : Option DatasetDir) : MetaResult :=
  match fs with
  | none => .err .datasetNotFound
  | some d => dataset_level_metadata d

/-! ## TileResolver: `_resolve_tile` -/

/-- `f"{col}_{row}.{ext}"`. -/
def tileFileName (col row : ℤ) (ext : String) : String :=
  ⟨intRepr col ++ '_' :: (intRepr row ++ '.' :: ext.data)⟩

/-- The media-type table, with its `image/jpeg` default. -/
def mediaTypeOf (ext : String) : String :=
  if ext = "jpg" then "image/jpeg"
  else if ext = "jpeg" then "image/jpeg"
  else if ext = "png" then "image/png"
  else if ext = "webp" then "image/webp"
  else "image/jpeg"

/-- `level_offset = max(dzi_max_level - max_available_level, 0)`. -/
def levelOffset (m : Meta) : ℤ := max (m.dziMax - m.maxAvail) 0

/-- The remapped level: subtract the offset, then clamp into
`[min_available_level, max_available_level]`. -/
def remapLevel (m : Meta) (level : ℤ) : ℤ :=
  min
    (if level - levelOffset m < m.minAvail then m.minAvail
     else level - levelOffset m)
    m.maxAvail

/-- `min(max(v, 0), bound)`: the nearest-edge clamp of a coordinate. -/
def clampCoord (v bound : ℤ) : ℤ := min (max v 0) bound

/-- Outcome of `_resolve_tile`: a `(levelName, fileName, mediaType)` tile or a
404. -/
inductive ResolveResult where
  | found (levelName fileName mediaType : String)
  | err (e : Err)
  deriving DecidableEq, Repr

/-- The remap branch of `_resolve_tile` (taken when the direct path is
missing): bounds lookup, coordinate clamp, final existence check. -/
def remapResolve (d : DatasetDir) (m : Meta) (level col row : ℤ) (ext : String) :
    ResolveResult :=
  match boundsGet m.bounds (remapLevel m level) with
  | none => .err .tileNotFound
  | some b =>
      if d.fileExists (strInt (remapLevel m level))
          (tileFileName (clampCoord col b.maxCol) (clampCoord row b.maxRow) ext) then
        .found (strInt (remapLevel m level))
          (tileFileName (clampCoord col b.maxCol) (clampCoord row b.maxRow) ext)
          (mediaTypeOf ext)
      else .err .tileNotFound

/-- `_resolve_tile`. -/
def resolve_tile (fs : Option DatasetDir) (level col row : ℤ) (ext : String) :
    ResolveResult :=
  match fs with
  | none => .err .datasetNotFound
  | some d =>
      match dataset_level_metadata d with
      | .err e => .err e
      | .ok m =>
          if d.fileExists (strInt level) (tileFileName col row ext) then
            .found (strInt level) (tileFileName col row ext) (mediaTypeOf ext)
          else remapResolve d m level col row ext

/-! ## PyramidBuilder: `calculate_pyramid_levels` and the tile counts of
`generate_tiles` -/

/-- `calculate_pyramid_levels(width, height, tile_size)`:
`math.ceil(math.log2(max_dimension / tile_size)) + 1`. -/
def calculate_pyramid_levels (width height tile_size : ℕ) : ℤ :=
  ceilLog2Q (max width height) tile_size + 1

/-- Number of levels as used by `range(num_levels)` (a nonpositive count gives
an empty range). -/
def numLevelsNat (width height tile_size : ℕ) : ℕ :=
  (calculate_pyramid_levels width height tile_size).toNat

/-- `math.ceil(a / b)` for naturals (`b > 0`). -/
def ceilDivNat (a b : ℕ) : ℕ := (a + b - 1) / b

/-- Tiles the generation loop emits at one level:
`cols * rows` with `level_width = max(1, width // scale)`. -/
def levelTileCount (width height tile_size n level : ℕ) : ℕ :=
  let scale := 2 ^ (n - 1 - level)
  ceilDivNat (max 1 (width / scale)) tile_size *
    ceilDivNat (max 1 (height / scale)) tile_size

/-- `total_tiles` as `generate_tiles` returns it: the number of iterations of
the nested tile loops, accumulated over `range(num_levels - 1, -1, -1)`. -/
def buildTileCount (width height tile_size : ℕ) : ℕ :=
  let n := numLevelsNat width height tile_size
  ((List.range n).reverse).foldl
    (fun acc level => acc + levelTileCount width height tile_size n level) 0

/-- The `total_tiles` progress estimate of `generate_tiles` (and the final
`(tilesDone, tilesTotal)` callback value): note `width // scale` is *not*
clamped to `1` here. -/
def progressTotal (width height tile_size : ℕ) : ℕ :=
  let n := numLevelsNat width height tile_size
  (List.range n).foldl
    (fun acc level =>
      acc + ceilDivNat (width / 2 ^ (n - 1 - level)) tile_size *
        ceilDivNat (height / 2 ^ (n - 1 - level)) tile_size) 0

/-- The tile-count formula as the claim states it:
`sum(ceil(levelWidth/tileSize) * ceil(levelHeight/tileSize))` with
`levelWidth = max(1, floor(width / 2^(N-1-level)))`. -/
def claimTileSum (width height tile_size : ℕ) : ℕ :=
  let n := numLevelsNat width height tile_size
  ((List.range n).map (levelTileCount width height tile_size n)).sum

/-! ## DescriptorCodec -/

/-- A pyramid descriptor. -/
structure Descriptor where
  width : ℕ
  height : ℕ
  tileSize : ℕ
  overlap : ℕ
  format : String
  deriving DecidableEq, Repr

/-- The format allow-list (`jpg` is what the builder writes; the serving
media-type table also knows `jpeg`, `png`, `webp`). -/
def formatEnum : List String := ["jpg", "jpeg", "png", "webp"]

/-- `create_dzi_xml`, at the XML-document level: root `Image` (the `xmlns`
attribute becomes the namespace) with `Format`/`Overlap`/`TileSize`
attributes and one `Size` child with `Width`/`Height`. -/
def create_dzi_xml (d : Descriptor) : XDoc :=
  { root := ⟨dziNamespace, "Image",
      [("Format", d.format), ("Overlap", strNat d.overlap),
       ("TileSize", strNat d.tileSize)]⟩,
    children := [⟨dziNamespace, "Size",
      [("Width", strNat d.width), ("Height", strNat d.height)]⟩] }

/-- Outcome of descriptor parsing. -/
inductive DescResult where
  | ok (d : Descriptor)
  | malformedDescriptor
  deriving DecidableEq, Repr

/-- Modelled from the spec: `DescriptorCodec.parse(bytes) -> descriptor` is not
a function of the repository (only the inline `Size`/`Width`/`Height`
extraction in `_dataset_level_metadata` exists); per §4.2 it fails with
`MalformedDescriptor` if the size element is absent or its attributes are
non-numeric, and otherwise recovers the descriptor record of §3 (whose
dimension fields are nonnegative integers) from the wire format of §6. -/
def parseDescriptor (doc : XDoc) : DescResult :=
  match findSize doc with
  | none => .malformedDescriptor
  | some size =>
      match pyInt (attrGetD size.attrs "Width" "0").data,
            pyInt (attrGetD size.attrs "Height" "0").data,
            pyInt (attrGetD doc.root.attrs "TileSize" "0").data,
            pyInt (attrGetD doc.root.attrs "Overlap" "0").data with
      | some w, some h, some ts, some ov =>
          if 0 ≤ w ∧ 0 ≤ h ∧ 0 ≤ ts ∧ 0 ≤ ov then
            .ok ⟨w.toNat, h.toNat, ts.toNat, ov.toNat,
                 attrGetD doc.root.attrs "Format" ""⟩
          else .malformedDescriptor
      | _, _, _, _ => .malformedDescriptor

/-- Invariant maintained by the directory walk: every available level has a
bounds entry, and every bounds entry is nonnegative in both components. -/
def ScanInv (acc : List ℤ × List (ℤ × LevelBounds)) : Prop :=
  (∀ l ∈ acc.1, (boundsGet acc.2 l).isSome = true) ∧
  (∀ l b, boundsGet acc.2 l = some b → 0 ≤ b.maxCol ∧ 0 ≤ b.maxRow)

/-! ## Concrete datasets used as witnesses and counterexamples -/

/-- A dataset with one level `0` holding the single tile `0_0.jpg`. -/
def dsSingleTile : DatasetDir := ⟨[⟨"0", ["0_0.jpg"]⟩], .absent⟩

/-- The metadata record `_dataset_level_metadata` computes for `dsSingleTile`. -/
def metaSingleTile : Meta := ⟨[(0, ⟨0, 0⟩)], 0, 0, 0⟩

/-- A dataset whose only entry is the negative-coordinate file `-1_-1.jpg`. -/
def dsNegTile : DatasetDir := ⟨[⟨"0", ["-1_-1.jpg"]⟩], .absent⟩

/-- A dataset with levels `0` and `2` materialized but nothing at level `1`. -/
def dsGapLevels : DatasetDir := ⟨[⟨"0", ["0_0.jpg"]⟩, ⟨"2", ["0_0.jpg"]⟩], .absent⟩

/-- Metadata for `dsGapLevels`: level `1` has no bounds entry. -/
def metaGapLevels : Meta := ⟨[(0, ⟨0, 0⟩), (2, ⟨0, 0⟩)], 0, 2, 2⟩

/-- The `Size` element of a descriptor declaring a 1024×1024 image. -/
def sizePreview : XElem :=
  ⟨"http://schemas.microsoft.com/deepzoom/2008", "Size",
   [("Width", "1024"), ("Height", "1024")]⟩

/-- A descriptor declaring a 1024×1024 image. -/
def docPreview : XDoc :=
  ⟨⟨"http://schemas.microsoft.com/deepzoom/2008", "Image",
    [("Format", "jpg"), ("Overlap", "1"), ("TileSize", "256")]⟩,
   [sizePreview]⟩

/-- A preview build: only level `0` exists but the descriptor declares a
1024×1024 image, so the level offset is `10`. -/
def dsPreview : DatasetDir := ⟨[⟨"0", ["0_0.jpg"]⟩], .doc docPreview⟩

/-- Metadata for `dsPreview`. -/
def metaPreview : Meta := ⟨[(0, ⟨0, 0⟩)], 0, 0, 10⟩

/-- The `Size` element of a descriptor declaring a tiny 2×2 image. -/
def sizeSmallDecl : XElem :=
  ⟨"http://schemas.microsoft.com/deepzoom/2008", "Size",
   [("Width", "2"), ("Height", "2")]⟩

/-- A descriptor declaring a 2×2 image. -/
def docSmallDecl : XDoc :=
  ⟨⟨"http://schemas.microsoft.com/deepzoom/2008", "Image",
    [("Format", "jpg"), ("Overlap", "1"), ("TileSize", "256")]⟩,
   [sizeSmallDecl]⟩

/-- A dataset materialized up to level `5` whose descriptor declares a 2×2
image (so `ceil(log2 2) = 1` is far below `maxAvailableLevel`). -/
def dsSmallDecl : DatasetDir := ⟨[⟨"5", ["0_0.jpg"]⟩], .doc docSmallDecl⟩

/-- Metadata for `dsSmallDecl`. -/
def metaSmallDecl : Meta := ⟨[(5, ⟨0, 0⟩)], 5, 5, 5⟩

/-- A well-formed descriptor document with no `Size` child. -/
def docNoSize : XDoc :=
  ⟨⟨"http://schemas.microsoft.com/deepzoom/2008", "Image",
    [("Format", "jpg"), ("Overlap", "1"), ("TileSize", "256")]⟩, []⟩

/-- A dataset whose descriptor lacks the `Size` element. -/
def dsNoSize : DatasetDir := ⟨[⟨"0", ["0_0.jpg"]⟩], .doc docNoSize⟩

/-- A dataset whose level `0` grid has an interior gap: tiles `(0,0)` and
`(2,2)` exist but `(1,1)` does not. -/
def dsInteriorGap : DatasetDir := ⟨[⟨"0", ["0_0.jpg", "2_2.jpg"]⟩], .absent⟩

/-- Metadata for `dsInteriorGap`. -/
def metaInteriorGap : Meta := ⟨[(0, ⟨2, 2⟩)], 0, 0, 0⟩

/-- A small valid descriptor record. -/
def descSample : Descriptor := ⟨4096, 2048, 256, 1, "jpg"⟩

/-! ## Lemmas: decimal parsing and printing round-trip -/

theorem charVal_digitChar {n : ℕ} (h : n < 10) : charVal (Nat.digitChar n) = n := by
  interval_cases n <;> decide

theorem isDigit_digitChar {n : ℕ} (h : n < 10) : (Nat.digitChar n).isDigit = true := by
  interval_cases n <;> decide

theorem digit_ne_underscore {c : Char} (h : c.isDigit = true) : ¬ c = '_' := by
  intro e; subst e; exact absurd h (by decide)

theorem digit_ne_dash {c : Char} (h : c.isDigit = true) : ¬ c = '-' := by
  intro e; subst e; exact absurd h (by decide)

theorem digit_ne_plus {c : Char} (h : c.isDigit = true) : ¬ c = '+' := by
  intro e; subst e; exact absurd h (by decide)

theorem digit_ne_dot {c : Char} (h : c.isDigit = true) : ¬ c = '.' := by
  intro e; subst e; exact absurd h (by decide)

theorem digit_not_space {c : Char} (h : c.isDigit = true) : isPySpace c = false := by
  by_contra hsp
  have hsp' : isPySpace c = true := by
    revert hsp; cases isPySpace c <;> simp
  simp only [isPySpace, Bool.or_eq_true, decide_eq_true_eq] at hsp'
  rcases hsp' with ((((e | e) | e) | e) | e) | e <;> (subst e; exact absurd h (by decide))

theorem dash_not_space : isPySpace '-' = false := by decide

theorem pyIntGo_digits :
    ∀ cs acc, (∀ c ∈ cs, c.isDigit = true) →
      pyIntGo acc cs = some (cs.foldl (fun a c => a * 10 + charVal c) acc) := by
  intro cs
  induction cs with
  | nil => intro acc _; rfl
  | cons c rest ih =>
      intro acc h
      have hc : c.isDigit = true := h c (by simp)
      rw [pyIntGo.eq_def]
      simp only [if_neg (digit_ne_underscore hc), if_pos hc, List.foldl_cons]
      exact ih _ (fun x hx => h x (List.mem_cons_of_mem _ hx))

theorem pyIntDigits_digits (cs : List Char) (hne : cs ≠ [])
    (h : ∀ c ∈ cs, c.isDigit = true) :
    pyIntDigits cs = some (cs.foldl (fun a c => a * 10 + charVal c) 0) := by
  cases cs with
  | nil => exact absurd rfl hne
  | cons c rest =>
      have hc : c.isDigit = true := h c (by simp)
      rw [pyIntDigits, if_pos hc, List.foldl_cons,
        pyIntGo_digits rest _ (fun x hx => h x (List.mem_cons_of_mem _ hx))]
      norm_num

theorem natReprAux_spec :
    ∀ fuel n, 1 ≤ fuel → n < 10 ^ fuel →
      natReprAux fuel n ≠ [] ∧ (∀ c ∈ natReprAux fuel n, c.isDigit = true) ∧
      ∀ acc, (natReprAux fuel n).foldl (fun a c => a * 10 + charVal c) acc =
        acc * 10 ^ (natReprAux fuel n).length + n := by
  intro fuel
  induction fuel with
  | zero => intro n h; omega
  | succ fuel ih =>
      intro n _ hn
      by_cases h10 : n < 10
      · refine ⟨by simp [natReprAux, h10], ?_, ?_⟩
        · intro c hc
          simp only [natReprAux, if_pos h10, List.mem_singleton] at hc
          subst hc; exact isDigit_digitChar h10
        · intro acc
          simp only [natReprAux, if_pos h10, List.foldl_cons, List.foldl_nil,
            List.length_singleton, pow_one]
          rw [charVal_digitChar h10]
      · have hfuel : 1 ≤ fuel := by
          rcases Nat.eq_zero_or_pos fuel with hz | hp
          · subst hz; simp at hn; omega
          · exact hp
        have hdiv : n / 10 < 10 ^ fuel := by
          rw [Nat.div_lt_iff_lt_mul (by norm_num)]
          calc n < 10 ^ (fuel + 1) := hn
            _ = 10 ^ fuel * 10 := by ring
        obtain ⟨h1, h2, h3⟩ := ih (n / 10) hfuel hdiv
        have hmod : n % 10 < 10 := Nat.mod_lt _ (by norm_num)
        refine ⟨by simp [natReprAux, h10], ?_, ?_⟩
        · intro c hc
          simp only [natReprAux, if_neg h10, List.mem_append, List.mem_singleton] at hc
          rcases hc with hc | hc
          · exact h2 c hc
          · subst hc; exact isDigit_digitChar hmod
        · intro acc
          simp only [natReprAux, if_neg h10, List.foldl_append, List.foldl_cons,
            List.foldl_nil, List.length_append, List.length_singleton]
          rw [h3 acc, charVal_digitChar hmod]
          have hdm : n / 10 * 10 + n % 10 = n := by omega
          have expand :
              (acc * 10 ^ (natReprAux fuel (n / 10)).length + n / 10) * 10 + n % 10 =
                acc * (10 ^ (natReprAux fuel (n / 10)).length * 10) +
                  (n / 10 * 10 + n % 10) := by ring
          rw [expand, hdm, pow_succ]

theorem natRepr_spec (n : ℕ) :
    natRepr n ≠ [] ∧ (∀ c ∈ natRepr n, c.isDigit = true) ∧
      (natRepr n).foldl (fun a c => a * 10 + charVal c) 0 = n := by
  have hlt : n < 10 ^ (n + 1) := by
    calc n < 2 ^ n := Nat.lt_two_pow n
      _ ≤ 10 ^ n := Nat.pow_le_pow_left (by norm_num) n
      _ ≤ 10 ^ (n + 1) := Nat.pow_le_pow_right (by norm_num) (by omega)
  obtain ⟨h1, h2, h3⟩ := natReprAux_spec (n + 1) n (by omega) hlt
  exact ⟨h1, h2, by simpa using h3 0⟩

theorem dropWhile_eq_self {p : Char → Bool} {cs : List Char}
    (h : ∀ c ∈ cs, p c = false) : cs.dropWhile p = cs := by
  cases cs with
  | nil => rfl
  | cons c rest => rw [List.dropWhile_cons, if_neg (by simp [h c (by simp)])]

theorem trimSpaces_eq_self {cs : List Char}
    (h : ∀ c ∈ cs, isPySpace c = false) : trimSpaces cs = cs := by
  unfold trimSpaces
  rw [dropWhile_eq_self h,
    dropWhile_eq_self (fun c hc => h c (List.mem_reverse.mp hc)),
    List.reverse_reverse]

theorem pyIntDigits_natRepr (n : ℕ) : pyIntDigits (natRepr n) = some n := by
  obtain ⟨h1, h2, h3⟩ := natRepr_spec n
  rw [pyIntDigits_digits (natRepr n) h1 h2, h3]

theorem pyInt_natRepr (n : ℕ) : pyInt (natRepr n) = some (n : ℤ) := by
  obtain ⟨h1, h2, _⟩ := natRepr_spec n
  rw [pyInt, trimSpaces_eq_self (fun c hc => digit_not_space (h2 c hc))]
  cases hrepr : natRepr n with
  | nil => exact absurd hrepr h1
  | cons c rest =>
      have hc : c.isDigit = true := h2 c (by rw [hrepr]; simp)
      rw [pyIntCore, if_neg (digit_ne_dash hc), if_neg (digit_ne_plus hc), ← hrepr,
        pyIntDigits_natRepr]
      rfl

theorem pyInt_intRepr (i : ℤ) : pyInt (intRepr i) = some i := by
  by_cases hneg : i < 0
  · obtain ⟨h1, h2, _⟩ := natRepr_spec i.natAbs
    rw [intRepr, if_pos hneg, pyInt, trimSpaces_eq_self ?hsp]
    case hsp =>
      intro c hc
      rcases List.mem_cons.mp hc with e | hm
      · subst e; exact dash_not_space
      · exact digit_not_space (h2 c hm)
    rw [pyIntCore, if_pos rfl, pyIntDigits_natRepr]
    have h3 : -(i.natAbs : ℤ) = i := by omega
    exact congrArg some h3
  · rw [intRepr, if_neg hneg, pyInt_natRepr]
    have : (i.toNat : ℤ) = i := by omega
    rw [this]

theorem intRepr_chars (i : ℤ) : ∀ c ∈ intRepr i, c = '-' ∨ c.isDigit = true := by
  intro c hc
  by_cases hneg : i < 0
  · rw [intRepr, if_pos hneg] at hc
    rcases List.mem_cons.mp hc with e | hm
    · exact Or.inl e
    · exact Or.inr ((natRepr_spec i.natAbs).2.1 c hm)
  · rw [intRepr, if_neg hneg] at hc
    exact Or.inr ((natRepr_spec i.toNat).2.1 c hc)

theorem intRepr_no_underscore (i : ℤ) : '_' ∉ intRepr i := by
  intro hm
  rcases intRepr_chars i '_' hm with e | hd
  · exact absurd e (by decide)
  · exact absurd hd (by decide)

theorem intRepr_no_dot (i : ℤ) : '.' ∉ intRepr i := by
  intro hm
  rcases intRepr_chars i '.' hm with e | hd
  · exact absurd e (by decide)
  · exact absurd hd (by decide)

theorem intRepr_ne_nil (i : ℤ) : intRepr i ≠ [] := by
  by_cases hneg : i < 0
  · rw [intRepr, if_pos hneg]; simp
  · rw [intRepr, if_neg hneg]; exact (natRepr_spec i.toNat).1

/-! ## Lemmas: tile filename parsing -/

theorem splitFirstUnderscore_append {pre rest : List Char} (h : '_' ∉ pre) :
    splitFirstUnderscore (pre ++ '_' :: rest) = some (pre, rest) := by
  induction pre with
  | nil => simp [splitFirstUnderscore]
  | cons c t ih =>
      have hc : ¬ c = '_' := fun e => h (by rw [e]; simp)
      have ht : '_' ∉ t := fun hm => h (List.mem_cons_of_mem _ hm)
      rw [List.cons_append, splitFirstUnderscore, if_neg hc, ih ht]

theorem stemSplit_no_dot {cs : List Char} (h : '.' ∉ cs) : stemSplit cs = none := by
  induction cs with
  | nil => rfl
  | cons c t ih =>
      have hc : ¬ c = '.' := fun e => h (by rw [e]; simp)
      have ht : '.' ∉ t := fun hm => h (List.mem_cons_of_mem _ hm)
      rw [stemSplit, ih ht, if_neg hc]

theorem stemSplit_append {pre ext : List Char} (h : '.' ∉ ext) :
    stemSplit (pre ++ '.' :: ext) = some (pre, ext) := by
  induction pre with
  | nil => rw [List.nil_append, stemSplit, stemSplit_no_dot h, if_pos rfl]
  | cons c t ih => rw [List.cons_append, stemSplit, ih]

theorem tileFileName_data (col row : ℤ) (ext : String) :
    (tileFileName col row ext).data =
      (intRepr col ++ '_' :: intRepr row) ++ '.' :: ext.data := by
  simp [tileFileName]

theorem pathStem_tileFileName (col row : ℤ) (ext : String)
    (hdot : '.' ∉ ext.data) (hne : ext.data ≠ []) :
    pathStem (tileFileName col row ext).data = intRepr col ++ '_' :: intRepr row := by
  rw [tileFileName_data, pathStem, stemSplit_append hdot]
  have hpre : intRepr col ++ '_' :: intRepr row ≠ [] := by simp
  show (if intRepr col ++ '_' :: intRepr row ≠ [] ∧ ext.data ≠ [] then
      intRepr col ++ '_' :: intRepr row
    else intRepr col ++ '_' :: intRepr row ++ '.' :: ext.data) =
      intRepr col ++ '_' :: intRepr row
  rw [if_pos (And.intro hpre hne)]

theorem parseTileStem_canonical (col row : ℤ) :
    parseTileStem (intRepr col ++ '_' :: intRepr row) = some (col, row) := by
  rw [parseTileStem, splitFirstUnderscore_append (intRepr_no_underscore col)]
  simp only [pyInt_intRepr]

theorem globUnderscore_tileFileName (col row : ℤ) (ext : String) :
    globUnderscore (tileFileName col row ext) = true := by
  rw [globUnderscore, tileFileName_data]
  simp

/-! ## Lemmas: the directory scan -/

theorem scanStep_le (acc : ℤ × ℤ) (f : String) :
    acc.1 ≤ (scanStep acc f).1 ∧ acc.2 ≤ (scanStep acc f).2 := by
  unfold scanStep
  by_cases hg : globUnderscore f = true
  · rw [if_pos hg]
    cases hp : parseTileStem (pathStem f.data) with
    | none => exact ⟨le_refl _, le_refl _⟩
    | some p =>
        cases p with
        | mk c r => exact ⟨le_max_left _ _, le_max_left _ _⟩
  · rw [if_neg hg]; exact ⟨le_refl _, le_refl _⟩

theorem foldl_scanStep_le :
    ∀ (files : List String) (init : ℤ × ℤ),
      init.1 ≤ (files.foldl scanStep init).1 ∧ init.2 ≤ (files.foldl scanStep init).2 := by
  intro files
  induction files with
  | nil => intro init; exact ⟨le_refl _, le_refl _⟩
  | cons f t ih =>
      intro init
      rw [List.foldl_cons]
      have h1 := scanStep_le init f
      have h2 := ih (scanStep init f)
      exact ⟨le_trans h1.1 h2.1, le_trans h1.2 h2.2⟩

theorem foldl_scanStep_ge (f : String) (c r : ℤ)
    (hg : globUnderscore f = true)
    (hp : parseTileStem (pathStem f.data) = some (c, r)) :
    ∀ (files : List String) (init : ℤ × ℤ), f ∈ files →
      c ≤ (files.foldl scanStep init).1 ∧ r ≤ (files.foldl scanStep init).2 := by
  intro files
  induction files with
  | nil => intro init h; cases h
  | cons g t ih =>
      intro init h
      rw [List.foldl_cons]
      rcases List.mem_cons.mp h with e | hm
      · have hstep : c ≤ (scanStep init g).1 ∧ r ≤ (scanStep init g).2 := by
          rw [← e]
          unfold scanStep
          rw [if_pos hg, hp]
          exact ⟨le_max_right _ _, le_max_right _ _⟩
        have h2 := foldl_scanStep_le t (scanStep init g)
        exact ⟨le_trans hstep.1 h2.1, le_trans hstep.2 h2.2⟩
      · exact ih (scanStep init g) hm

theorem scanLevelDir_ge {files : List String} {f : String} {c r : ℤ}
    (hf : f ∈ files) (hg : globUnderscore f = true)
    (hp : parseTileStem (pathStem f.data) = some (c, r)) :
    c ≤ (scanLevelDir files).1 ∧ r ≤ (scanLevelDir files).2 :=
  foldl_scanStep_ge f c r hg hp files (-1, -1) hf

theorem boundsGet_insert (bs : List (ℤ × LevelBounds)) (k : ℤ) (v : LevelBounds)
    (l : ℤ) :
    boundsGet (boundsInsert bs k v) l = if k = l then some v else boundsGet bs l := by
  induction bs with
  | nil =>
      by_cases h : k = l
      · subst h; simp [boundsInsert, boundsGet, List.find?]
      · simp [boundsInsert, boundsGet, List.find?, h]
  | cons p t ih =>
      obtain ⟨k', v'⟩ := p
      by_cases hk : k' = k
      · subst hk
        by_cases h : k' = l
        · subst h; simp [boundsInsert, boundsGet, List.find?]
        · simp [boundsInsert, boundsGet, List.find?, h]
      · by_cases h : k' = l
        · subst h
          have hkk : ¬ k = k' := fun e => hk e.symm
          simp [boundsInsert, boundsGet, List.find?, hk, hkk]
        · have step : boundsGet ((k', v') :: boundsInsert t k v) l =
              boundsGet (boundsInsert t k v) l := by
            simp [boundsGet, List.find?, h]
          have step2 : boundsGet ((k', v') :: t) l = boundsGet t l := by
            simp [boundsGet, List.find?, h]
          rw [boundsInsert, if_neg hk, step, ih, step2]

theorem scanDirStep_inv {acc : List ℤ × List (ℤ × LevelBounds)} {dir : LevelDir}
    (h : ScanInv acc) : ScanInv (scanDirStep acc dir) := by
  unfold scanDirStep
  cases hp : pyInt dir.name.data with
  | none => simp only [hp]; exact h
  | some lvl =>
      simp only [hp]
      by_cases hc : (scanLevelDir dir.files).1 ≥ 0 ∧ (scanLevelDir dir.files).2 ≥ 0
      · rw [if_pos hc]
        constructor
        · intro l hl
          rw [boundsGet_insert]
          by_cases he : lvl = l
          · rw [if_pos he]; rfl
          · rw [if_neg he]
            rcases List.mem_append.mp hl with hm | hm
            · exact h.1 l hm
            · rcases List.mem_singleton.mp hm with e
              exact absurd e.symm he
        · intro l b hb
          rw [boundsGet_insert] at hb
          by_cases he : lvl = l
          · rw [if_pos he] at hb
            cases hb
            exact ⟨hc.1, hc.2⟩
          · rw [if_neg he] at hb
            exact h.2 l b hb
      · rw [if_neg hc]; exact h

theorem foldl_scanDirStep_inv :
    ∀ (dirs : List LevelDir) (acc : List ℤ × List (ℤ × LevelBounds)),
      ScanInv acc → ScanInv (dirs.foldl scanDirStep acc) := by
  intro dirs
  induction dirs with
  | nil => intro acc h; exact h
  | cons g t ih =>
      intro acc h
      rw [List.foldl_cons]
      exact ih _ (scanDirStep_inv h)

theorem scanSubdirs_inv (subdirs : List LevelDir) : ScanInv (scanSubdirs subdirs) := by
  refine foldl_scanDirStep_inv subdirs ([], []) ⟨?_, ?_⟩
  · intro l hl; cases hl
  · intro l b hb; cases hb

theorem scanDirStep_fst_nonempty (acc : List ℤ × List (ℤ × LevelBounds))
    (dir : LevelDir) : acc.1 ≠ [] → (scanDirStep acc dir).1 ≠ [] := by
  intro h
  unfold scanDirStep
  cases hp : pyInt dir.name.data with
  | none => simp only [hp]; exact h
  | some lvl =>
      simp only [hp]
      by_cases hc : (scanLevelDir dir.files).1 ≥ 0 ∧ (scanLevelDir dir.files).2 ≥ 0
      · rw [if_pos hc]; simp
      · rw [if_neg hc]; exact h

theorem foldl_scanDirStep_ne_nil :
    ∀ (dirs : List LevelDir) (acc : List ℤ × List (ℤ × LevelBounds)),
      acc.1 ≠ [] → (dirs.foldl scanDirStep acc).1 ≠ [] := by
  intro dirs
  induction dirs with
  | nil => intro acc h; exact h
  | cons g t ih =>
      intro acc h
      rw [List.foldl_cons]
      exact ih _ (scanDirStep_fst_nonempty acc g h)

theorem foldl_scanDirStep_hit (dir : LevelDir) (lvl : ℤ)
    (hlvl : pyInt dir.name.data = some lvl)
    (hmc : 0 ≤ (scanLevelDir dir.files).1) (hmr : 0 ≤ (scanLevelDir dir.files).2) :
    ∀ (dirs : List LevelDir) (acc : List ℤ × List (ℤ × LevelBounds)),
      dir ∈ dirs → (dirs.foldl scanDirStep acc).1 ≠ [] := by
  intro dirs
  induction dirs with
  | nil => intro acc h; cases h
  | cons g t ih =>
      intro acc h
      rw [List.foldl_cons]
      rcases List.mem_cons.mp h with e | hm
      · refine foldl_scanDirStep_ne_nil t _ ?_
        rw [← e]
        unfold scanDirStep
        simp only [hlvl]
        rw [if_pos (And.intro hmc hmr)]
        simp
      · exact ih _ hm

theorem scanSubdirs_ne_nil {subdirs : List LevelDir} {dir : LevelDir} {lvl : ℤ}
    (hd : dir ∈ subdirs) (hlvl : pyInt dir.name.data = some lvl)
    (hmc : 0 ≤ (scanLevelDir dir.files).1) (hmr : 0 ≤ (scanLevelDir dir.files).2) :
    (scanSubdirs subdirs).1 ≠ [] :=
  foldl_scanDirStep_hit dir lvl hlvl hmc hmr subdirs ([], []) hd

/-! ## Lemmas: `max`/`min` of a nonempty list and metadata structure -/

theorem le_listMax : ∀ (rest : List ℤ) (a : ℤ), a ≤ listMax a rest := by
  intro rest
  induction rest with
  | nil => intro a; exact le_refl a
  | cons h t ih =>
      intro a
      have step : listMax a (h :: t) = listMax (max a h) t := rfl
      rw [step]
      exact le_trans (le_max_left a h) (ih (max a h))

theorem listMin_le : ∀ (rest : List ℤ) (a : ℤ), listMin a rest ≤ a := by
  intro rest
  induction rest with
  | nil => intro a; exact le_refl a
  | cons h t ih =>
      intro a
      have step : listMin a (h :: t) = listMin (min a h) t := rfl
      rw [step]
      exact le_trans (ih (min a h)) (min_le_left a h)

theorem listMin_le_listMax (a : ℤ) (rest : List ℤ) : listMin a rest ≤ listMax a rest :=
  le_trans (listMin_le rest a) (le_listMax rest a)

theorem listMax_mem : ∀ (rest : List ℤ) (a : ℤ), listMax a rest ∈ a :: rest := by
  intro rest
  induction rest with
  | nil => intro a; simp [listMax]
  | cons h t ih =>
      intro a
      have step : listMax a (h :: t) = listMax (max a h) t := rfl
      rw [step]
      rcases List.mem_cons.mp (ih (max a h)) with e | hm
      · rcases max_choice a h with e2 | e2
        · rw [e, e2]; simp
        · rw [e, e2]; simp
      · simp [List.mem_cons, hm]

theorem dataset_level_metadata_ok {d : DatasetDir} {m : Meta}
    (h : dataset_level_metadata d = .ok m) :
    ∃ a rest, (scanSubdirs d.subdirs).1 = a :: rest ∧
      m.bounds = (scanSubdirs d.subdirs).2 ∧
      m.minAvail = listMin a rest ∧ m.maxAvail = listMax a rest ∧
      m.dziMax = max (dziLevel (listMax a rest) d.dzi) (listMax a rest) := by
  have h2 : (match (scanSubdirs d.subdirs).1 with
      | [] => MetaResult.err .noTilesAvailable
      | a :: rest =>
          MetaResult.ok ⟨(scanSubdirs d.subdirs).2, listMin a rest, listMax a rest,
            max (dziLevel (listMax a rest) d.dzi) (listMax a rest)⟩) =
      MetaResult.ok m := h
  cases hscan : (scanSubdirs d.subdirs).1 with
  | nil =>
      rw [hscan] at h2
      exact MetaResult.noConfusion h2
  | cons a rest =>
      rw [hscan] at h2
      have h3 : MetaResult.ok
          (⟨(scanSubdirs d.subdirs).2, listMin a rest, listMax a rest,
            max (dziLevel (listMax a rest) d.dzi) (listMax a rest)⟩ : Meta) =
          MetaResult.ok m := h2
      cases h3
      exact ⟨a, rest, rfl, rfl, rfl, rfl, rfl⟩

theorem meta_minAvail_le_maxAvail {d : DatasetDir} {m : Meta}
    (h : dataset_level_metadata d = .ok m) : m.minAvail ≤ m.maxAvail := by
  obtain ⟨a, rest, _, _, hmin, hmax, _⟩ := dataset_level_metadata_ok h
  rw [hmin, hmax]
  exact listMin_le_listMax a rest

theorem meta_maxAvail_le_dziMax {d : DatasetDir} {m : Meta}
    (h : dataset_level_metadata d = .ok m) : m.maxAvail ≤ m.dziMax := by
  obtain ⟨a, rest, _, _, _, hmax, hdzi⟩ := dataset_level_metadata_ok h
  rw [hmax, hdzi]
  exact le_max_right _ _

theorem meta_bounds_nonneg {d : DatasetDir} {m : Meta}
    (h : dataset_level_metadata d = .ok m) {l : ℤ} {b : LevelBounds}
    (hb : boundsGet m.bounds l = some b) : 0 ≤ b.maxCol ∧ 0 ≤ b.maxRow := by
  obtain ⟨a, rest, _, hbnd, _, _, _⟩ := dataset_level_metadata_ok h
  rw [hbnd] at hb
  exact (scanSubdirs_inv d.subdirs).2 l b hb

theorem meta_maxAvail_has_bounds {d : DatasetDir} {m : Meta}
    (h : dataset_level_metadata d = .ok m) :
    ∃ b, boundsGet m.bounds m.maxAvail = some b := by
  obtain ⟨a, rest, hscan, hbnd, _, hmax, _⟩ := dataset_level_metadata_ok h
  have hmem : m.maxAvail ∈ (scanSubdirs d.subdirs).1 := by
    rw [hscan, hmax]; exact listMax_mem rest a
  have hsome := (scanSubdirs_inv d.subdirs).1 m.maxAvail hmem
  rw [← hbnd] at hsome
  exact Option.isSome_iff_exists.mp hsome

/-! ## Lemmas: resolver behaviour -/

theorem dataset_level_metadata_isOk_of_tile {d : DatasetDir} {level col row : ℤ}
    {ext : String}
    (hex : d.fileExists (strInt level) (tileFileName col row ext) = true)
    (hcol : 0 ≤ col) (hrow : 0 ≤ row)
    (hdot : '.' ∉ ext.data) (hnext : ext.data ≠ []) :
    ∃ m, dataset_level_metadata d = .ok m := by
  unfold DatasetDir.fileExists at hex
  cases hf : d.subdirs.find? (fun l => l.name = strInt level) with
  | none => rw [hf] at hex; cases hex
  | some ldir =>
      rw [hf] at hex
      have hmem : tileFileName col row ext ∈ ldir.files := of_decide_eq_true hex
      have hsub : ldir ∈ d.subdirs := List.mem_of_find?_eq_some hf
      have hname : ldir.name = strInt level := by
        have hpred := List.find?_some hf
        simpa using hpred
      have hlvl : pyInt ldir.name.data = some level := by
        rw [hname]; exact pyInt_intRepr level
      have hp : parseTileStem (pathStem (tileFileName col row ext).data) =
          some (col, row) := by
        rw [pathStem_tileFileName col row ext hdot hnext]
        exact parseTileStem_canonical col row
      have hge := scanLevelDir_ge hmem (globUnderscore_tileFileName col row ext) hp
      have hmc : 0 ≤ (scanLevelDir ldir.files).1 := le_trans hcol hge.1
      have hmr : 0 ≤ (scanLevelDir ldir.files).2 := le_trans hrow hge.2
      have hnn := scanSubdirs_ne_nil hsub hlvl hmc hmr
      cases hscan : (scanSubdirs d.subdirs).1 with
      | nil => exact absurd hscan hnn
      | cons a rest =>
          refine ⟨⟨(scanSubdirs d.subdirs).2, listMin a rest, listMax a rest,
            max (dziLevel (listMax a rest) d.dzi) (listMax a rest)⟩, ?_⟩
          show (match (scanSubdirs d.subdirs).1 with
            | [] => MetaResult.err .noTilesAvailable
            | a :: rest =>
                MetaResult.ok ⟨(scanSubdirs d.subdirs).2, listMin a rest,
                  listMax a rest,
                  max (dziLevel (listMax a rest) d.dzi) (listMax a rest)⟩) = _
          rw [hscan]

theorem remapLevel_eq_maxAvail {m : Meta} {level : ℤ}
    (hmin : m.minAvail ≤ m.maxAvail)
    (hlev : m.maxAvail + levelOffset m < level) :
    remapLevel m level = m.maxAvail := by
  unfold remapLevel
  rw [if_neg (by omega : ¬ level - levelOffset m < m.minAvail)]
  exact min_eq_right (by omega)

theorem remapLevel_eq_self {m : Meta} {level : ℤ}
    (hoff : levelOffset m = 0)
    (hmin : m.minAvail ≤ level) (hmax : level ≤ m.maxAvail) :
    remapLevel m level = level := by
  unfold remapLevel
  rw [hoff]
  rw [if_neg (by omega : ¬ level - 0 < m.minAvail)]
  rw [show level - 0 = level from by omega]
  exact min_eq_left hmax

theorem clampCoord_of_mem {v bound : ℤ} (h0 : 0 ≤ v) (hb : v ≤ bound) :
    clampCoord v bound = v := by
  unfold clampCoord
  rw [max_eq_left h0]
  exact min_eq_left hb

theorem clampCoord_nonneg {v bound : ℤ} (hb : 0 ≤ bound) : 0 ≤ clampCoord v bound := by
  unfold clampCoord
  rcases min_choice (max v 0) bound with e | e <;> rw [e]
  · exact le_max_right v 0
  · exact hb

theorem clampCoord_le {v bound : ℤ} (hb : 0 ≤ bound) : clampCoord v bound ≤ bound :=
  min_le_right _ _

theorem clampCoord_overflow {bound : ℤ} (hb : 0 ≤ bound) :
    clampCoord (bound + 5) bound = bound := by
  unfold clampCoord
  rw [max_eq_left (by omega)]
  exact min_eq_right (by omega)

/-! ## Lemmas: exactness of the ceil-log₂ search -/

theorem leastPow_zero (m t k : ℕ) : leastPow m t 0 k = k := rfl

theorem leastPow_succ (m t fuel k : ℕ) :
    leastPow m t (fuel + 1) k =
      if m ≤ 2 ^ k * t then k else leastPow m t fuel (k + 1) := rfl

theorem greatestPow_zero (m t j : ℕ) : greatestPow m t 0 j = j := rfl

theorem greatestPow_succ (m t fuel j : ℕ) :
    greatestPow m t (fuel + 1) j =
      if m * 2 ^ (j + 1) ≤ t then greatestPow m t fuel (j + 1) else j := rfl

theorem leastPow_spec (m t : ℕ) :
    ∀ fuel k, m ≤ 2 ^ (k + fuel) * t →
      m ≤ 2 ^ leastPow m t fuel k * t ∧ k ≤ leastPow m t fuel k ∧
      ∀ k', k ≤ k' → k' < leastPow m t fuel k → ¬ m ≤ 2 ^ k' * t := by
  intro fuel
  induction fuel with
  | zero =>
      intro k hk
      rw [leastPow_zero] at *
      exact ⟨by simpa using hk, le_refl k,
        fun k' h1 h2 => absurd h1 (by omega)⟩
  | succ fuel ih =>
      intro k hk
      rw [leastPow_succ]
      by_cases h : m ≤ 2 ^ k * t
      · rw [if_pos h]
        exact ⟨h, le_refl k, fun k' h1 h2 => absurd h1 (by omega)⟩
      · rw [if_neg h]
        have hk2 : m ≤ 2 ^ (k + 1 + fuel) * t := by
          have e : k + 1 + fuel = k + (fuel + 1) := by omega
          rw [e]; exact hk
        obtain ⟨s1, s2, s3⟩ := ih (k + 1) hk2
        refine ⟨s1, by omega, ?_⟩
        intro k' h1 h2
        by_cases he : k' = k
        · exact he ▸ h
        · exact s3 k' (by omega) h2

theorem greatestPow_spec (m t : ℕ) (hm : 1 ≤ m) :
    ∀ fuel j, m * 2 ^ j ≤ t → t < 2 ^ (j + fuel) * m →
      m * 2 ^ greatestPow m t fuel j ≤ t ∧
      ¬ m * 2 ^ (greatestPow m t fuel j + 1) ≤ t ∧ j ≤ greatestPow m t fuel j := by
  intro fuel
  induction fuel with
  | zero =>
      intro j hj hbound
      exfalso
      rw [Nat.add_zero] at hbound
      have e : m * 2 ^ j = 2 ^ j * m := Nat.mul_comm m (2 ^ j)
      rw [e] at hj
      exact absurd (lt_of_le_of_lt hj hbound) (lt_irrefl _)
  | succ fuel ih =>
      intro j hj hbound
      rw [greatestPow_succ]
      by_cases h : m * 2 ^ (j + 1) ≤ t
      · rw [if_pos h]
        have hbound2 : t < 2 ^ (j + 1 + fuel) * m := by
          have e : j + 1 + fuel = j + (fuel + 1) := by omega
          rw [e]; exact hbound
        obtain ⟨s1, s2, s3⟩ := ih (j + 1) h hbound2
        exact ⟨s1, s2, by omega⟩
      · rw [if_neg h]
        exact ⟨hj, h, le_refl j⟩

theorem rat_div_le_pow_iff {m t kn : ℕ} (ht : 1 ≤ t) :
    ((m : ℚ) / t ≤ 2 ^ (kn : ℤ)) ↔ m ≤ 2 ^ kn * t := by
  have htq : (0 : ℚ) < t := by exact_mod_cast ht
  rw [div_le_iff₀ htq, zpow_natCast]
  constructor
  · intro hq; exact_mod_cast hq
  · intro hn; exact_mod_cast hn

theorem rat_div_le_pow_neg_iff {m t jn : ℕ} (ht : 1 ≤ t) :
    ((m : ℚ) / t ≤ 2 ^ (-(jn : ℤ))) ↔ m * 2 ^ jn ≤ t := by
  have htq : (0 : ℚ) < t := by exact_mod_cast ht
  have h2 : (0 : ℚ) < 2 ^ jn := by positivity
  rw [zpow_neg, zpow_natCast, ← one_div, div_le_div_iff htq h2, one_mul]
  constructor
  · intro hq; exact_mod_cast hq
  · intro hn; exact_mod_cast hn

theorem ceilLog2Q_spec (m t : ℕ) (hm : 1 ≤ m) (ht : 1 ≤ t) :
    (m : ℚ) / t ≤ 2 ^ ceilLog2Q m t ∧
    ∀ k : ℤ, (m : ℚ) / t ≤ 2 ^ k → ceilLog2Q m t ≤ k := by
  have htq : (0 : ℚ) < t := by exact_mod_cast ht
  by_cases hle : t ≤ m
  · have hfuel : m ≤ 2 ^ (0 + m) * t := by
      calc m ≤ 2 ^ m := le_of_lt (Nat.lt_two_pow m)
        _ = 2 ^ (0 + m) := by rw [Nat.zero_add]
        _ ≤ 2 ^ (0 + m) * t := Nat.le_mul_of_pos_right _ ht
    obtain ⟨s1, _, s3⟩ := leastPow_spec m t m 0 hfuel
    unfold ceilLog2Q
    rw [if_pos hle]
    constructor
    · exact (rat_div_le_pow_iff ht).mpr s1
    · intro k hk
      by_cases hkneg : k < 0
      · exfalso
        have hq1 : (1 : ℚ) ≤ (m : ℚ) / t := by
          rw [one_le_div htq]; exact_mod_cast hle
        have hk1 : (2 : ℚ) ^ k ≤ (2 : ℚ) ^ (-1 : ℤ) :=
          zpow_le_zpow_right₀ (by norm_num) (by omega)
        have hhalf : (2 : ℚ) ^ (-1 : ℤ) = 1 / 2 := by norm_num
        rw [hhalf] at hk1
        have hcontra : (1 : ℚ) ≤ 1 / 2 := le_trans hq1 (le_trans hk hk1)
        norm_num at hcontra
      · push_neg at hkneg
        obtain ⟨kn, rfl⟩ : ∃ kn : ℕ, k = (kn : ℤ) := ⟨k.toNat, by omega⟩
        have hnat := (rat_div_le_pow_iff ht).mp hk
        by_contra hlt
        push_neg at hlt
        have hlt2 : kn < leastPow m t m 0 := by exact_mod_cast hlt
        exact s3 kn (Nat.zero_le _) hlt2 hnat
  · have hmt : m ≤ t := le_of_lt (lt_of_not_le hle)
    have hj0 : m * 2 ^ 0 ≤ t := by simpa using hmt
    have hbound : t < 2 ^ (0 + t) * m := by
      calc t < 2 ^ t := Nat.lt_two_pow t
        _ = 2 ^ (0 + t) := by rw [Nat.zero_add]
        _ ≤ 2 ^ (0 + t) * m := Nat.le_mul_of_pos_right _ hm
    obtain ⟨s1, s2, _⟩ := greatestPow_spec m t hm t 0 hj0 hbound
    unfold ceilLog2Q
    rw [if_neg hle]
    constructor
    · exact (rat_div_le_pow_neg_iff ht).mpr s1
    · intro k hk
      by_contra hlt
      push_neg at hlt
      have hk2 : (m : ℚ) / t ≤ 2 ^ (-((greatestPow m t t 0 + 1 : ℕ) : ℤ)) := by
        refine le_trans hk (zpow_le_zpow_right₀ (by norm_num) ?_)
        push_cast
        omega
      have := (rat_div_le_pow_neg_iff ht).mp hk2
      exact s2 this

/-! ## Lemmas: tile-count sums -/

theorem foldl_add_map (f : ℕ → ℕ) :
    ∀ (l : List ℕ) (acc : ℕ),
      l.foldl (fun a x => a + f x) acc = acc + (l.map f).sum := by
  intro l
  induction l with
  | nil => intro acc; simp
  | cons x t ih =>
      intro acc
      rw [List.foldl_cons, ih, List.map_cons, List.sum_cons]
      omega

theorem buildTileCount_eq_claimTileSum (w h ts : ℕ) :
    buildTileCount w h ts = claimTileSum w h ts := by
  simp only [buildTileCount, claimTileSum]
  rw [foldl_add_map, List.map_reverse, List.sum_reverse, Nat.zero_add]

theorem progressTotal_eq_claimTileSum (w h ts : ℕ)
    (hpos : ∀ level < numLevelsNat w h ts,
      1 ≤ w / 2 ^ (numLevelsNat w h ts - 1 - level) ∧
      1 ≤ h / 2 ^ (numLevelsNat w h ts - 1 - level)) :
    progressTotal w h ts = claimTileSum w h ts := by
  simp only [progressTotal, claimTileSum]
  rw [foldl_add_map, Nat.zero_add]
  congr 1
  apply List.map_congr_left
  intro level hlevel
  have hlt : level < numLevelsNat w h ts := List.mem_range.mp hlevel
  obtain ⟨hw1, hh1⟩ := hpos level hlt
  simp only [levelTileCount]
  rw [max_eq_right hw1, max_eq_right hh1]

/-! ## Claim theorems -/

/-- C1 (amended): for a dataset whose metadata scan succeeds and a request
whose level exceeds `maxAvailableLevel + levelOffset`, resolution returns a
`Found` result naming an existing tile file, provided the tile file at the
remapped position — level `maxAvailableLevel`, the requested column and row
clamped into that level's discovered bounds, the requested extension — exists
on disk.  (As originally stated the claim is false: with only "at least one
parseable tile" the remapped file can be missing, e.g. when the stored tiles
use a different extension; see the counterexample.) -/
theorem c1_clamped_resolution_found (d : DatasetDir) (m : Meta) (b : LevelBounds)
    (level col row : ℤ) (ext : String)
    (hm : dataset_level_metadata d = .ok m)
    (hb : boundsGet m.bounds m.maxAvail = some b)
    (hlev : m.maxAvail + levelOffset m < level)
    (hex : d.fileExists (strInt m.maxAvail)
      (tileFileName (clampCoord col b.maxCol) (clampCoord row b.maxRow) ext) = true) :
    ∃ ln fn, resolve_tile (some d) level col row ext = .found ln fn (mediaTypeOf ext) ∧
      d.fileExists ln fn = true := by
  simp only [resolve_tile, hm]
  by_cases hdir : d.fileExists (strInt level) (tileFileName col row ext) = true
  · rw [if_pos hdir]
    exact ⟨_, _, rfl, hdir⟩
  · rw [if_neg hdir]
    have hrl := remapLevel_eq_maxAvail (meta_minAvail_le_maxAvail hm) hlev
    simp only [remapResolve, hrl, hb]
    rw [if_pos hex]
    exact ⟨_, _, rfl, hex⟩

/-- C1 witness: a fully clamped request against `dsSingleTile` resolves to its
only tile. -/
theorem c1_witness :
    ∃ ln fn, resolve_tile (some dsSingleTile) 1 7 9 "jpg" =
        .found ln fn (mediaTypeOf "jpg") ∧
      dsSingleTile.fileExists ln fn = true :=
  c1_clamped_resolution_found dsSingleTile metaSingleTile ⟨0, 0⟩ 1 7 9 "jpg"
    (by decide) (by decide) (by decide) (by decide)

/-- C1 counterexample: `dsSingleTile` stores only `0_0.jpg`; the request
`(level 1, col 0, row 0, ext png)` satisfies the claim's premises (metadata
succeeds, `level > maxAvailableLevel + levelOffset`, a tile exists) yet
resolution returns `NotFound`, falsifying "always returns some Found tile". -/
theorem c1_counterexample :
    dataset_level_metadata dsSingleTile = .ok metaSingleTile ∧
    metaSingleTile.maxAvail + levelOffset metaSingleTile < 1 ∧
    resolve_tile (some dsSingleTile) 1 0 0 "png" = .err .tileNotFound := by
  decide

/-- C2 (amended): the `total_tiles` count returned by `generate_tiles` equals
the claimed sum `Σ ceil(levelWidth/tileSize) * ceil(levelHeight/tileSize)`
with `levelWidth = max(1, floor(width / 2^(N-1-level)))`; the final progress
value (`total_tiles` of the progress estimate) equals that same sum only
under the additional hypothesis that `floor(dim / scale) ≥ 1` for both
dimensions at every level — the estimate omits the `max(1, ·)` clamp and can
undercount for extreme aspect ratios (see the counterexample). -/
theorem c2_tile_count_invariant (w h ts : ℕ) (hw : 256 ≤ w) (hh : 256 ≤ h)
    (hts : 0 < ts) :
    buildTileCount w h ts = claimTileSum w h ts ∧
    ((∀ level < numLevelsNat w h ts,
        1 ≤ w / 2 ^ (numLevelsNat w h ts - 1 - level) ∧
        1 ≤ h / 2 ^ (numLevelsNat w h ts - 1 - level)) →
      progressTotal w h ts = claimTileSum w h ts) :=
  ⟨buildTileCount_eq_claimTileSum w h ts,
   fun hpos => progressTotal_eq_claimTileSum w h ts hpos⟩

/-- C2 witness: for a 4096×4096 image every level has positive floor
dimensions, so the returned count and the final progress value agree with the
claimed sum. -/
theorem c2_witness :
    buildTileCount 4096 4096 256 = claimTileSum 4096 4096 256 ∧
    progressTotal 4096 4096 256 = claimTileSum 4096 4096 256 :=
  ⟨(c2_tile_count_invariant 4096 4096 256 (by decide) (by decide) (by decide)).1,
   (c2_tile_count_invariant 4096 4096 256 (by decide) (by decide) (by decide)).2
     (by decide)⟩

/-- C2 counterexample: for a valid 70000×256 source image the builder
generates 553 tiles (the clamped sum) but the final progress callback reports
`(552, 552)` — the unclamped estimate drops the coarsest level, whose floor
height is `0`. -/
theorem c2_counterexample :
    256 ≤ (70000 : ℕ) ∧ 256 ≤ (256 : ℕ) ∧
    buildTileCount 70000 256 256 = 553 ∧ progressTotal 70000 256 256 = 552 ∧
    buildTileCount 70000 256 256 ≠ progressTotal 70000 256 256 := by
  decide

/-- C3 (amended): the fifth component returned by `_dataset_level_metadata`
(the declared max level) is `max(dziRaw, maxAvailableLevel)`, where `dziRaw`
is `ceil(log2(max(declaredWidth, declaredHeight)))` when a descriptor with a
parseable positive `Size` is present and `maxAvailableLevel` otherwise — it
is *not* the bare `ceil(log2 ...)` value the claim states, because the code
takes `max(dzi_max_level, max_available_level)` before returning (see the
counterexample, where the descriptor declares a 2×2 image under 6 levels of
tiles). -/
theorem c3_declared_max_level (d : DatasetDir) (m : Meta)
    (hm : dataset_level_metadata d = .ok m) :
    m.dziMax = max (dziLevel m.maxAvail d.dzi) m.maxAvail ∧
    ∀ doc size w h, d.dzi = .doc doc → findSize doc = some size →
      pyInt (attrGetD size.attrs "Width" "0").data = some w →
      pyInt (attrGetD size.attrs "Height" "0").data = some h →
      (0 < w ∨ 0 < h) →
      m.dziMax = max (ceilLog2Int (max w h)) m.maxAvail := by
  obtain ⟨a, rest, hscan, hbnd, hmin, hmax, hdzi⟩ := dataset_level_metadata_ok hm
  constructor
  · rw [hdzi, hmax]
  · intro doc size w h hdoc hsize hw hh hpos
    rw [hdzi, hmax]
    have hlvl : dziLevel (listMax a rest) d.dzi = ceilLog2Int (max w h) := by
      rw [hdoc]
      simp only [dziLevel, hsize, hw, hh]
      rw [if_pos hpos]
    rw [hlvl]

/-- C3 witness: for `dsSmallDecl` the declared max level is
`max(ceil(log2 2), 5) = 5`. -/
theorem c3_witness :
    metaSmallDecl.dziMax = max (ceilLog2Int (max 2 2)) metaSmallDecl.maxAvail :=
  (c3_declared_max_level dsSmallDecl metaSmallDecl (by decide)).2
    docSmallDecl sizeSmallDecl 2 2 (by decide) (by decide) (by decide) (by decide)
    (by decide)

/-- C3 counterexample: `dsSmallDecl` has a descriptor with a present,
parseable `Size` (2×2), so the claim predicts `declaredMaxLevel =
ceil(log2 2) = 1`; the code returns `5` (= `maxAvailableLevel`) instead. -/
theorem c3_counterexample :
    dataset_level_metadata dsSmallDecl = .ok metaSmallDecl ∧
    dsSmallDecl.dzi = .doc docSmallDecl ∧
    findSize docSmallDecl = some sizeSmallDecl ∧
    pyInt (attrGetD sizeSmallDecl.attrs "Width" "0").data = some 2 ∧
    pyInt (attrGetD sizeSmallDecl.attrs "Height" "0").data = some 2 ∧
    ceilLog2Int (max 2 2) = 1 ∧ metaSmallDecl.dziMax = 5 ∧ (5 : ℤ) ≠ 1 := by
  decide

/-- C4 (amended): when the descriptor's `Size` element is absent, or its
`Width` attribute is non-numeric, or the file is malformed, the serving-side
descriptor read does not fail at all — the `try/except` swallows the problem
and `dzi_max_level` silently keeps the `maxAvailableLevel` fallback.  (The
claim's `MalformedDescriptor` failure does not exist in the code; see the
counterexample, where metadata lookup succeeds on a descriptor with no
`Size`.) -/
theorem c4_descriptor_silent_fallback (maxA : ℤ) (st : DziState)
    (h : st = .malformed ∨
      (∃ doc, st = .doc doc ∧ findSize doc = none) ∨
      (∃ doc size, st = .doc doc ∧ findSize doc = some size ∧
        pyInt (attrGetD size.attrs "Width" "0").data = none)) :
    dziLevel maxA st = maxA := by
  rcases h with h | ⟨doc, hdoc, hnone⟩ | ⟨doc, size, hdoc, hsize, hwnone⟩
  · rw [h]; rfl
  · rw [hdoc]
    simp only [dziLevel, hnone]
  · rw [hdoc]
    simp only [dziLevel, hsize, hwnone]

/-- C4 witness: a descriptor with no `Size` element yields the fallback. -/
theorem c4_witness : dziLevel 7 (DziState.doc docNoSize) = 7 :=
  c4_descriptor_silent_fallback 7 (.doc docNoSize)
    (Or.inr (Or.inl ⟨docNoSize, rfl, by decide⟩))

/-- C4 counterexample: `dsNoSize` has a descriptor whose `Size` element is
absent; the claim says parsing fails with `MalformedDescriptor`, but the
metadata lookup succeeds, silently substituting `maxAvailableLevel` for the
declared level. -/
theorem c4_counterexample :
    dsNoSize.dzi = .doc docNoSize ∧ findSize docNoSize = none ∧
    dataset_level_metadata dsNoSize = .ok ⟨[(0, ⟨0, 0⟩)], 0, 0, 0⟩ := by
  decide

/-- C5: on the remap branch with `levelOffset > 0`, the tile path is built
from the *raw* requested column and row, clamped into the remapped level's
discovered bounds — `min(max(col, 0), maxCol)` and `min(max(row, 0), maxRow)`
— never from the requested values divided by `2^levelOffset`. -/
theorem c5_raw_coordinates_on_remap (d : DatasetDir) (m : Meta) (b : LevelBounds)
    (level col row : ℤ) (ext : String)
    (hm : dataset_level_metadata d = .ok m)
    (hdir : ¬ d.fileExists (strInt level) (tileFileName col row ext) = true)
    (hoff : 0 < levelOffset m)
    (hb : boundsGet m.bounds (remapLevel m level) = some b) :
    resolve_tile (some d) level col row ext =
      (if d.fileExists (strInt (remapLevel m level))
          (tileFileName (clampCoord col b.maxCol) (clampCoord row b.maxRow) ext) then
        ResolveResult.found (strInt (remapLevel m level))
          (tileFileName (clampCoord col b.maxCol) (clampCoord row b.maxRow) ext)
          (mediaTypeOf ext)
      else ResolveResult.err Err.tileNotFound) := by
  simp only [resolve_tile, hm]
  rw [if_neg hdir]
  simp only [remapResolve, hb]

/-- C5 witness: `dsPreview` has `levelOffset = 10`; the request
`(level 10, col 3, row 4)` is served from the raw clamped coordinates
`(0, 0)` at the remapped level `0`, not from `(3 / 2^10, 4 / 2^10)`-style
rescaling. -/
theorem c5_witness :
    resolve_tile (some dsPreview) 10 3 4 "jpg" =
      (if dsPreview.fileExists (strInt (remapLevel metaPreview 10))
          (tileFileName (clampCoord 3 (0 : ℤ)) (clampCoord 4 (0 : ℤ)) "jpg") then
        ResolveResult.found (strInt (remapLevel metaPreview 10))
          (tileFileName (clampCoord 3 (0 : ℤ)) (clampCoord 4 (0 : ℤ)) "jpg")
          (mediaTypeOf "jpg")
      else ResolveResult.err Err.tileNotFound) :=
  c5_raw_coordinates_on_remap dsPreview metaPreview ⟨0, 0⟩ 10 3 4 "jpg"
    (by decide) (by decide) (by decide) (by decide)

/-- C6 (amended): when the remapped level *has* a bounds entry, the
lookup-and-clamp step never errors: the resolver proceeds to the final
existence check with the requested column clamped into `[0, maxCol]` and row
into `[0, maxRow]` (so `col = maxCol + 5` is clamped to `maxCol`).  As stated
the claim is false: a `remappedLevel` strictly between `minAvailableLevel`
and `maxAvailableLevel` may have no discovered bounds at all, and the lookup
then raises 404 (see the counterexample with levels 0 and 2 only). -/
theorem c6_clamp_within_bounds (d : DatasetDir) (m : Meta) (b : LevelBounds)
    (level col row : ℤ) (ext : String)
    (hm : dataset_level_metadata d = .ok m)
    (hb : boundsGet m.bounds (remapLevel m level) = some b) :
    remapResolve d m level col row ext =
      (if d.fileExists (strInt (remapLevel m level))
          (tileFileName (clampCoord col b.maxCol) (clampCoord row b.maxRow) ext) then
        ResolveResult.found (strInt (remapLevel m level))
          (tileFileName (clampCoord col b.maxCol) (clampCoord row b.maxRow) ext)
          (mediaTypeOf ext)
      else ResolveResult.err Err.tileNotFound) ∧
    clampCoord (b.maxCol + 5) b.maxCol = b.maxCol ∧
    0 ≤ clampCoord col b.maxCol ∧ clampCoord col b.maxCol ≤ b.maxCol ∧
    0 ≤ clampCoord row b.maxRow ∧ clampCoord row b.maxRow ≤ b.maxRow := by
  have hnn := meta_bounds_nonneg hm hb
  refine ⟨?_, clampCoord_overflow hnn.1, clampCoord_nonneg hnn.1,
    clampCoord_le hnn.1, clampCoord_nonneg hnn.2, clampCoord_le hnn.2⟩
  simp only [remapResolve, hb]

/-- C6 witness: against `dsSingleTile` (bounds `maxCol = maxRow = 0` at the
remapped level), requesting `col = 7 = maxCol + ...`, `row = 9` clamps into
the grid and the step produces the final existence check, not an error. -/
theorem c6_witness :
    remapResolve dsSingleTile metaSingleTile 3 7 9 "jpg" =
      (if dsSingleTile.fileExists (strInt (remapLevel metaSingleTile 3))
          (tileFileName (clampCoord 7 (0 : ℤ)) (clampCoord 9 (0 : ℤ)) "jpg") then
        ResolveResult.found (strInt (remapLevel metaSingleTile 3))
          (tileFileName (clampCoord 7 (0 : ℤ)) (clampCoord 9 (0 : ℤ)) "jpg")
          (mediaTypeOf "jpg")
      else ResolveResult.err Err.tileNotFound) ∧
    clampCoord ((0 : ℤ) + 5) 0 = 0 ∧
    (0 : ℤ) ≤ clampCoord 7 0 ∧ clampCoord 7 (0 : ℤ) ≤ 0 ∧
    (0 : ℤ) ≤ clampCoord 9 0 ∧ clampCoord 9 (0 : ℤ) ≤ 0 :=
  c6_clamp_within_bounds dsSingleTile metaSingleTile ⟨0, 0⟩ 3 7 9 "jpg"
    (by decide) (by decide)

/-- C6 counterexample: `dsGapLevels` materializes levels 0 and 2 only.  For
the request `(level 1, col 0, row 0)` the remapped level is `1`, which lies
in `[minAvailableLevel, maxAvailableLevel] = [0, 2]`, yet the bounds lookup
finds nothing and the step errors with 404 — contradicting "never produces an
error for any remappedLevel in [minAvailableLevel, maxAvailableLevel]". -/
theorem c6_counterexample :
    dataset_level_metadata dsGapLevels = .ok metaGapLevels ∧
    metaGapLevels.minAvail ≤ remapLevel metaGapLevels 1 ∧
    remapLevel metaGapLevels 1 ≤ metaGapLevels.maxAvail ∧
    boundsGet metaGapLevels.bounds (remapLevel metaGapLevels 1) = none ∧
    resolve_tile (some dsGapLevels) 1 0 0 "jpg" = .err .tileNotFound := by
  decide

/-- C7 (amended): for every request with `col ≥ 0`, `row ≥ 0` and a nonempty
dot-free extension for which the file `datasetPath/level/col_row.ext` exists,
resolution returns exactly that path with its media type, never taking the
remap branch.  (As stated over *all* requests the claim is false: a request
for an existing file with negative coordinates can fail outright, because the
scanner never counts negative-coordinate tiles as available and the metadata
lookup 404s before the fast path; see the counterexample.) -/
theorem c7_exact_match_resolution (d : DatasetDir) (level col row : ℤ)
    (ext : String)
    (hex : d.fileExists (strInt level) (tileFileName col row ext) = true)
    (hcol : 0 ≤ col) (hrow : 0 ≤ row)
    (hdot : '.' ∉ ext.data) (hnext : ext.data ≠ []) :
    resolve_tile (some d) level col row ext =
      .found (strInt level) (tileFileName col row ext) (mediaTypeOf ext) := by
  obtain ⟨m, hm⟩ := dataset_level_metadata_isOk_of_tile hex hcol hrow hdot hnext
  simp only [resolve_tile, hm]
  rw [if_pos hex]

/-- C7 witness: the directly requested tile of `dsSingleTile` is returned
unchanged. -/
theorem c7_witness :
    resolve_tile (some dsSingleTile) 0 0 0 "jpg" =
      .found (strInt 0) (tileFileName 0 0 "jpg") (mediaTypeOf "jpg") :=
  c7_exact_match_resolution dsSingleTile 0 0 0 "jpg"
    (by decide) (by decide) (by decide) (by decide) (by decide)

/-- C7 counterexample: in `dsNegTile` the file `-1_-1.jpg` exists in level
directory `0` and is requested exactly, yet resolution raises `No tiles
available` instead of
returning the path: the scanner's `max_col >= 0` guard never marks the level
available, so the metadata lookup fails before the fast path runs. -/
theorem c7_counterexample :
    dsNegTile.fileExists (strInt 0) (tileFileName (-1) (-1) "jpg") = true ∧
    resolve_tile (some dsNegTile) 0 (-1) (-1) "jpg" = .err .noTilesAvailable := by
  decide

/-- C8: serializing a valid descriptor and parsing the result recovers the
descriptor exactly — width, height, tile size, overlap and format — and the
wire format is the namespace `http://schemas.microsoft.com/deepzoom/2008`
with root element `Image` (attributes `Format`, `Overlap`, `TileSize`) and
child `Size` (attributes `Width`, `Height`); moreover the repository's own
`Size` extraction in `_dataset_level_metadata` reads back exactly the
serialized dimensions. -/
theorem c8_descriptor_round_trip (d : Descriptor) (hw : 0 < d.width)
    (hh : 0 < d.height) (hts : 0 < d.tileSize) (hfmt : d.format ∈ formatEnum) :
    parseDescriptor (create_dzi_xml d) = .ok d ∧
    (create_dzi_xml d).root.ns = "http://schemas.microsoft.com/deepzoom/2008" ∧
    (create_dzi_xml d).root.tag = "Image" ∧
    findSize (create_dzi_xml d) =
      some ⟨"http://schemas.microsoft.com/deepzoom/2008", "Size",
        [("Width", strNat d.width), ("Height", strNat d.height)]⟩ ∧
    ∀ maxA, dziLevel maxA (.doc (create_dzi_xml d)) =
      ceilLog2Int (max (d.width : ℤ) (d.height : ℤ)) := by
  have hfind : findSize (create_dzi_xml d) =
      some ⟨dziNamespace, "Size",
        [("Width", strNat d.width), ("Height", strNat d.height)]⟩ := by
    simp [findSize, create_dzi_xml, List.find?]
  have hW : pyInt (attrGetD
      [("Width", strNat d.width), ("Height", strNat d.height)] "Width" "0").data =
      some (d.width : ℤ) := by
    have e : attrGetD [("Width", strNat d.width), ("Height", strNat d.height)]
        "Width" "0" = strNat d.width := by
      simp [attrGetD, List.find?]
    rw [e]
    exact pyInt_natRepr d.width
  have hH : pyInt (attrGetD
      [("Width", strNat d.width), ("Height", strNat d.height)] "Height" "0").data =
      some (d.height : ℤ) := by
    have e : attrGetD [("Width", strNat d.width), ("Height", strNat d.height)]
        "Height" "0" = strNat d.height := by
      simp [attrGetD, List.find?]
    rw [e]
    exact pyInt_natRepr d.height
  have hTS : pyInt (attrGetD (create_dzi_xml d).root.attrs "TileSize" "0").data =
      some (d.tileSize : ℤ) := by
    have e : attrGetD (create_dzi_xml d).root.attrs "TileSize" "0" =
        strNat d.tileSize := by
      simp [attrGetD, create_dzi_xml, List.find?]
    rw [e]
    exact pyInt_natRepr d.tileSize
  have hOV : pyInt (attrGetD (create_dzi_xml d).root.attrs "Overlap" "0").data =
      some (d.overlap : ℤ) := by
    have e : attrGetD (create_dzi_xml d).root.attrs "Overlap" "0" =
        strNat d.overlap := by
      simp [attrGetD, create_dzi_xml, List.find?]
    rw [e]
    exact pyInt_natRepr d.overlap
  have hFMT : attrGetD (create_dzi_xml d).root.attrs "Format" "" = d.format := by
    simp [attrGetD, create_dzi_xml, List.find?]
  refine ⟨?_, rfl, rfl, hfind, ?_⟩
  · simp only [parseDescriptor, hfind, hW, hH, hTS, hOV]
    rw [if_pos ⟨Int.natCast_nonneg _, Int.natCast_nonneg _, Int.natCast_nonneg _,
      Int.natCast_nonneg _⟩]
    simp only [Int.toNat_natCast, hFMT]
  · intro maxA
    simp only [dziLevel, hfind, hW, hH]
    rw [if_pos (Or.inl (by exact_mod_cast hw))]

/-- C8 witness: the 4096×2048 jpg descriptor round-trips. -/
theorem c8_witness :
    parseDescriptor (create_dzi_xml descSample) = .ok descSample ∧
    (create_dzi_xml descSample).root.ns =
      "http://schemas.microsoft.com/deepzoom/2008" ∧
    (create_dzi_xml descSample).root.tag = "Image" ∧
    findSize (create_dzi_xml descSample) =
      some ⟨"http://schemas.microsoft.com/deepzoom/2008", "Size",
        [("Width", strNat 4096), ("Height", strNat 2048)]⟩ ∧
    ∀ maxA, dziLevel maxA (.doc (create_dzi_xml descSample)) =
      ceilLog2Int (max (4096 : ℤ) 2048) :=
  c8_descriptor_round_trip descSample (by decide) (by decide) (by decide)
    (by decide)

/-- C9: the computed level count is exactly
`ceil(log2(max(width, height) / tileSize)) + 1` — that is, `N - 1` is the
least integer `k` with `max(width, height) / tileSize ≤ 2^k` — and in
particular `levelCount(4096, 4096, 256) = 5` and
`levelCount(42208, 9870, 256) = 9`. -/
theorem c9_level_count (w h ts : ℕ) (hw : 0 < w) (hh : 0 < h) (hts : 0 < ts) :
    ((max w h : ℚ) / ts ≤ 2 ^ (calculate_pyramid_levels w h ts - 1) ∧
     ∀ k : ℤ, (max w h : ℚ) / ts ≤ 2 ^ (k - 1) →
       calculate_pyramid_levels w h ts ≤ k) ∧
    calculate_pyramid_levels 4096 4096 256 = 5 ∧
    calculate_pyramid_levels 42208 9870 256 = 9 := by
  have hm : 1 ≤ max w h := le_trans hw (le_max_left w h)
  obtain ⟨s1, s2⟩ := ceilLog2Q_spec (max w h) ts hm hts
  refine ⟨⟨?_, ?_⟩, by decide, by decide⟩
  · unfold calculate_pyramid_levels
    have e : ceilLog2Q (max w h) ts + 1 - 1 = ceilLog2Q (max w h) ts := by omega
    rw [e, ← Nat.cast_max]
    exact s1
  · intro k hk
    unfold calculate_pyramid_levels
    rw [← Nat.cast_max] at hk
    have := s2 (k - 1) hk
    omega

/-- C9 witness: the two concrete level counts of the claim. -/
theorem c9_witness :
    calculate_pyramid_levels 4096 4096 256 = 5 ∧
    calculate_pyramid_levels 42208 9870 256 = 9 :=
  (c9_level_count 4096 4096 256 (by decide) (by decide) (by decide)).2

/-- C10: with `levelOffset = 0`, a requested level inside
`[minAvailableLevel, maxAvailableLevel]` with discovered bounds, and requested
coordinates already inside `[0, maxCol] × [0, maxRow]`, the remapped path is
identical to the originally requested path, so a missing interior tile yields
`NotFound` — it is never substituted with a neighboring tile. -/
theorem c10_interior_gap_not_substituted (d : DatasetDir) (m : Meta)
    (b : LevelBounds) (level col row : ℤ) (ext : String)
    (hm : dataset_level_metadata d = .ok m)
    (hdir : ¬ d.fileExists (strInt level) (tileFileName col row ext) = true)
    (hoff : levelOffset m = 0)
    (hminl : m.minAvail ≤ level) (hmaxl : level ≤ m.maxAvail)
    (hb : boundsGet m.bounds level = some b)
    (hc0 : 0 ≤ col) (hcb : col ≤ b.maxCol)
    (hr0 : 0 ≤ row) (hrb : row ≤ b.maxRow) :
    remapLevel m level = level ∧
    clampCoord col b.maxCol = col ∧ clampCoord row b.maxRow = row ∧
    resolve_tile (some d) level col row ext = .err .tileNotFound := by
  have hrl := remapLevel_eq_self hoff hminl hmaxl
  have hcc := clampCoord_of_mem hc0 hcb
  have hrc := clampCoord_of_mem hr0 hrb
  refine ⟨hrl, hcc, hrc, ?_⟩
  simp only [resolve_tile, hm]
  rw [if_neg hdir]
  simp only [remapResolve, hrl, hb, hcc, hrc]
  rw [if_neg hdir]

/-- C10 witness: in `dsInteriorGap` the interior tile `(1,1)` of level `0` is
missing; the request maps back to itself and returns `NotFound`. -/
theorem c10_witness :
    remapLevel metaInteriorGap 0 = 0 ∧
    clampCoord 1 (2 : ℤ) = 1 ∧ clampCoord 1 (2 : ℤ) = 1 ∧
    resolve_tile (some dsInteriorGap) 0 1 1 "jpg" = .err .tileNotFound :=
  c10_interior_gap_not_substituted dsInteriorGap metaInteriorGap ⟨2, 2⟩ 0 1 1 "jpg"
    (by decide) (by decide) (by decide) (by decide) (by decide) (by decide)
    (by decide) (by decide) (by decide) (by decide)
